import Mathlib

/-!
Verification development for the concurrent fetch-and-aggregate pipeline in
`src/main.py` (word-occurrence statistics over a batch of fetched web pages).

The Python program is embedded shallowly:

* `count_words` (source lines 29-42) counts `re.findall(word, text,
  re.IGNORECASE)` matches.  The program only ever calls it with the
  alphabetic words of `WORDS` (source line 17), for which the pattern is a
  regex literal; a literal `IGNORECASE` search is modelled by lowercasing
  both sides and counting leftmost non-overlapping occurrences, exactly as
  `re.findall` scans.  The BeautifulSoup text extraction `soup.get_text()`
  is the external parser boundary: the extracted visible text is the
  function's input here.
* `get_aggr_data` (source lines 63-77) lowercases the visible text
  (`soup.get_text(" ", strip=True)`), splits on whitespace, keeps the
  tokens satisfying `str.isalpha`, and records the token count and the
  distinct-token count (`len(set(...))`, modelled with `List.dedup`).
* The fetch/gather/report pipeline (`fetch_data`, `fetch_all`, `save_data`,
  `main`, `__main__`) is embedded further below with the network and the
  file system as explicit oracles.

All definitions are executable; fallible Python code is embedded with
`Except`, so "the function raises" is visible as an `.error` value and
"the function returns normally" as totality plus `.ok`.
-/

/-- `str.lower()` over a list of characters (ASCII case mapping, which is
what the program's inputs exercise). -/
def lowerL (s : List Char) : List Char := s.map Char.toLower

/-- The whitespace test of Python's `str.split()` / `str.strip()`
(space, tab, carriage return, newline). -/
def isWsChar (c : Char) : Bool := c.isWhitespace

/-- `leadsWith w t` holds when `w` is an initial segment of `t`. -/
def leadsWith : List Char → List Char → Bool
  | [], _ => true
  | _ :: _, [] => false
  | d :: ws, c :: ts => decide (d = c) && leadsWith ws ts

/-- Scan for a non-empty literal pattern `w`: at `skip = 0` try to match at
the current position (a match is counted and the scan resumes right after
its end, i.e. the remaining `w.length - 1` characters are skipped);
at `skip + 1` the current character still belongs to the previous match. -/
def countOccAux (w : List Char) : List Char → Nat → Nat
  | [], _ => 0
  | c :: ts, 0 =>
    if leadsWith w (c :: ts) then 1 + countOccAux w ts (w.length - 1)
    else countOccAux w ts 0
  | _ :: ts, skip + 1 => countOccAux w ts skip

/-- Number of matches `re.findall` yields for a literal pattern `w` in text
`t`: leftmost, non-overlapping, scanning left to right; an empty pattern
matches at every position (`t.length + 1` matches). -/
def countOcc (t w : List Char) : Nat :=
  match w with
  | [] => t.length + 1
  | d :: ws => countOccAux (d :: ws) t 0

/-- Whether the literal pattern `w` occurs anywhere inside `t`. -/
def subOcc (w : List Char) : List Char → Bool
  | [] => leadsWith w []
  | c :: ts => leadsWith w (c :: ts) || subOcc w ts

/-- Source `count_words` (lines 29-42): `re.findall(word, html_text,
re.IGNORECASE)` match count for the literal (alphabetic) patterns the
program uses, with `html_text = soup.get_text()` the extracted visible
text.  Total: the Lean embedding of "never raises" for these patterns. -/
def count_words (html_text word : String) : Nat :=
  countOcc (lowerL html_text.toList) (lowerL word.toList)

/-- Source line 17: the configured target-word list. -/
def WORDS : List String := ["team", "uniberg"]

/-- Helper for `splitWs`: accumulates the current token (reversed). -/
def splitWsAux : List Char → List Char → List (List Char)
  | acc, [] => if acc = [] then [] else [acc.reverse]
  | acc, c :: cs =>
    if isWsChar c then
      if acc = [] then splitWsAux [] cs else acc.reverse :: splitWsAux [] cs
    else splitWsAux (c :: acc) cs

/-- Python `str.split()` with no argument: split on whitespace runs,
producing no empty tokens. -/
def splitWs (s : List Char) : List (List Char) := splitWsAux [] s

/-- Python `str.isalpha()` on a token: non-empty and all alphabetic. -/
def isalphaTok (w : List Char) : Bool := decide (w ≠ []) && w.all Char.isAlpha

/-- The token list of source line 71: visible text, lowercased, split on
whitespace, tokens with any non-alphabetic character discarded. -/
def extractTokens (text : String) : List (List Char) :=
  (splitWs (lowerL text.toList)).filter isalphaTok

/-- The per-page aggregate dict built by `get_aggr_data`. -/
structure AggrRec where
  url : String
  total_words : Nat
  unique_words : Nat
deriving DecidableEq, Repr

/-- Source `get_aggr_data` (lines 63-77), with the extracted visible text
`soup.get_text(" ", strip=True)` as input: `total_words` is the number of
alphabetic tokens, `unique_words` the number of distinct ones
(`len(set(all_words))`, i.e. the length of the deduplicated list). -/
def get_aggr_data (url : String) (textSep : String) : AggrRec :=
  { url := url
    total_words := (extractTokens textSep).length
    unique_words := (extractTokens textSep).dedup.length }

/-- The visible text of page A from the specification's worked example. -/
def exampleText : String := "Our team is the best team in Uniberg"

/-- The two visible-text extractions of one successfully fetched page:
`textPlain` is `soup.get_text()` (used by `count_words`), `textSep` is
`soup.get_text(" ", strip=True)` (used by `get_aggr_data`).  BeautifulSoup
itself is the external parser boundary. -/
structure FetchedPage where
  textPlain : String
  textSep : String
deriving DecidableEq, Repr

/-- The exception classes the top level of the program distinguishes:
`aiohttp.InvalidURL`, `aiohttp.ClientConnectorError`, and every other
exception (timeouts, non-text responses, `pandas` errors, ...). -/
inductive FetchErr where
  | invalidURL (msg : String)
  | connector (msg : String)
  | other (msg : String)
deriving DecidableEq, Repr

/-- One row of the merged per-url dataframe `url_stat_df` built in
`fetch_data` (lines 93-95): the single-row aggregate dataframe merged on
`url` with the per-word count dataframe duplicates the aggregate columns
onto every word row. -/
structure Row where
  url : String
  total_words : Nat
  unique_words : Nat
  word : String
  count : Nat
deriving DecidableEq, Repr

/-- The rows `fetch_data` produces for one successfully fetched page:
one row per word of `words`, carrying the page's aggregate columns and the
word's occurrence count. -/
def rowsFor (words : List String) (url : String) (p : FetchedPage) : List Row :=
  words.map fun w =>
    { url := url
      total_words := (get_aggr_data url p.textSep).total_words
      unique_words := (get_aggr_data url p.textSep).unique_words
      word := w
      count := count_words p.textPlain w }

/-- Source `fetch_data` (lines 79-96).  The network and the HTML parser are
the oracle `env`: for each url it yields either the fetched page's visible
texts or the exception `session.get`/`resp.text()` raises.  `fetch_data`
itself installs no exception handler, so an oracle error propagates
unchanged. -/
def fetch_data (env : String → Except FetchErr FetchedPage) (words : List String)
    (url : String) : Except FetchErr (List Row) :=
  match env url with
  | .error e => .error e
  | .ok p => .ok (rowsFor words url p)

/-- The error component of an `Except`, if any. -/
def errOf {ε α : Type} : Except ε α → Option ε
  | .ok _ => none
  | .error e => some e

/-- The value component of an `Except`, if any. -/
def okOf {ε α : Type} : Except ε α → Option α
  | .ok a => some a
  | .error _ => none

/-- Whether an `Except` is a success. -/
def isOkE {ε α : Type} : Except ε α → Bool
  | .ok _ => true
  | .error _ => false

/-- The exception `asyncio.gather` propagates: the first failing task in
completion order (`order` lists task indices by completion; indices it
omits are inspected afterwards in argument order, so an error is never
missed). -/
def firstErr {ε α : Type} (order : List Nat) (tasks : List (Except ε α)) : Option ε :=
  match order with
  | [] => (tasks.filterMap errOf).head?
  | i :: rest =>
    match tasks[i]? with
    | some t =>
      match errOf t with
      | some e => some e
      | none => firstErr rest tasks
    | none => firstErr rest tasks

/-- `asyncio.gather(*tasks)` without `return_exceptions`: if any task
raises, the first exception (in completion order) propagates to the
awaiter; otherwise the task results are returned in argument order,
whatever the completion order was. -/
def gatherModel {ε α : Type} (order : List Nat) (tasks : List (Except ε α)) :
    Except ε (List α) :=
  match firstErr order tasks with
  | some e => .error e
  | none => .ok (tasks.filterMap okOf)

/-- Source `fetch_all` (lines 98-108): fan-out one `fetch_data` coroutine
per url, `asyncio.gather` them, and `pd.concat` the per-url dataframes
(`pd.concat` of an empty sequence raises `ValueError`, caught at top level
as a generic exception). -/
def fetch_all (env : String → Except FetchErr FetchedPage) (order : List Nat)
    (words : List String) (urls : List String) : Except FetchErr (List Row) :=
  match gatherModel order (urls.map (fetch_data env words)) with
  | .error e => .error e
  | .ok dfs =>
    if dfs = [] then .error (.other "No objects to concatenate")
    else .ok dfs.flatten

/-- `pandas.unique` over a column: distinct values in order of first
occurrence (helper with the already-seen values). -/
def uniqueFirstAux {α : Type} [DecidableEq α] (seen : List α) : List α → List α
  | [] => []
  | a :: l => if a ∈ seen then uniqueFirstAux seen l else a :: uniqueFirstAux (a :: seen) l

/-- `pandas.unique` over a column: distinct values in first-occurrence
order (`df['word'].unique()`, `df['url'].unique()` in `save_data`). -/
def uniqueFirst {α : Type} [DecidableEq α] (l : List α) : List α := uniqueFirstAux [] l

/-- `pivot_df.loc[word, "count"][url]`: the `count` value of the row with
this `(word, url)` pair (unique when the pivot succeeded; the pipeline
always produces every pair, so the `NaN` hole of a missing pair does not
arise). -/
def lookupCount (rows : List Row) (w u : String) : Nat :=
  match rows.find? (fun r => decide (r.word = w) && decide (r.url = u)) with
  | some r => r.count
  | none => 0

/-- `pivot_df.loc[word, "total_words"][url]`, analogous to `lookupCount`. -/
def lookupTotal (rows : List Row) (w u : String) : Nat :=
  match rows.find? (fun r => decide (r.word = w) && decide (r.url = u)) with
  | some r => r.total_words
  | none => 0

/-- `pivot_df.loc[word, "unique_words"][url]`, analogous to `lookupCount`. -/
def lookupUnique (rows : List Row) (w u : String) : Nat :=
  match rows.find? (fun r => decide (r.word = w) && decide (r.url = u)) with
  | some r => r.unique_words
  | none => 0

/-- Source `save_data` (lines 44-61), up to the report text it appends to
`result.txt`.  `df.pivot` raises `ValueError` on a duplicated
`(word, url)` pair; after the word loop, the leaked loop variable `word`
(the last word) indexes the grand-total rows, and a `NameError` occurs
there when the word column is empty.  Both escape to the generic top-level
handler, so they are embedded as errors. -/
def save_data (rows : List Row) : Except FetchErr (List String) :=
  if (rows.map fun r => (r.word, r.url)).Nodup then
    match (uniqueFirst (rows.map Row.word)).getLast? with
    | none => .error (.other "NameError: name word is not defined")
    | some lastWord =>
      .ok ((uniqueFirst (rows.map Row.word)).flatMap (fun w =>
            ("Occurrences of word \"" ++ w ++ "\":") ::
            (uniqueFirst (rows.map Row.url)).map
              (fun u => "- " ++ u ++ " => " ++ toString (lookupCount rows w u)) ++
            ["- Total count for word \"" ++ w ++ "\" in all urls => " ++
              toString (((uniqueFirst (rows.map Row.url)).map
                (fun u => lookupCount rows w u)).sum)]) ++
          ["* Total count of all words in all urls => " ++
            toString (((uniqueFirst (rows.map Row.url)).map
              (fun u => lookupTotal rows lastWord u)).sum),
          "* Total count of unique words in all urls => " ++
            toString (((uniqueFirst (rows.map Row.url)).map
              (fun u => lookupUnique rows lastWord u)).sum)])
  else .error (.other "Index contains duplicate entries, cannot reshape")

/-- Source `main` (lines 110-123) up to the data it writes: fetch all urls,
then render and append the report.  Exceptions propagate to the caller of
`asyncio.run`. -/
def mainModel (env : String → Except FetchErr FetchedPage) (order : List Nat)
    (words : List String) (urls : List String) : Except FetchErr (List String) :=
  match fetch_all env order words urls with
  | .error e => .error e
  | .ok rows => save_data rows

/-- The state of `urls.txt` when the program starts. -/
inductive FileInput where
  | missing
  | present (lines : List String)

/-- Python `str.strip()` on a list of characters. -/
def stripChars (s : List Char) : List Char :=
  ((s.dropWhile isWsChar).reverse.dropWhile isWsChar).reverse

/-- Python `str.strip()` on a string. -/
def stripStr (s : String) : String := String.mk (stripChars s.toList)

/-- Source `get_urls` (lines 19-27): read `urls.txt` and strip every line;
a missing file raises `FileNotFoundError`.  Lines that become empty are
kept. -/
def get_urls : FileInput → Except Unit (List String)
  | .missing => .error ()
  | .present lines => .ok (lines.map stripStr)

/-- The two fatal setup errors of the `__main__` block. -/
inductive SetupMsg where
  | fileMissing
  | fileEmpty
deriving DecidableEq, Repr

/-- The user message printed for each setup error (lines 130 and 132; the
exception detail appended to the first message is elided). -/
def setupMessageText : SetupMsg → String
  | .fileMissing => "Please provide valid \"ursl.txt\" file."
  | .fileEmpty => "File \"ursl.txt\" is empty!"

/-- Which of the three run-time handlers of the `__main__` block printed
(lines 141-146). -/
inductive RunMsg where
  | invalidUrl
  | connErr
  | general
deriving DecidableEq, Repr

/-- Which handler catches a given exception class. -/
def msgOf : FetchErr → RunMsg
  | .invalidURL _ => RunMsg.invalidUrl
  | .connector _ => RunMsg.connErr
  | .other _ => RunMsg.general

/-- Everything externally observable about one program run: which setup
error was reported, whether `result.txt` was truncated, which urls the
batch fetched (`none` when the batch never started), the report appended
to `result.txt` (`none` when nothing was written), and which run-time
error handler printed. -/
structure RunOutcome where
  setupError : Option SetupMsg
  truncated : Bool
  launchedUrls : Option (List String)
  report : Option (List String)
  errorMsg : Option RunMsg
deriving DecidableEq, Repr

/-- The `__main__` block (lines 125-147): load and validate the url list
(`assert len(urls) > 0`), on success truncate `result.txt` and run the
batch, mapping each escaping exception to its handler.  No exception
reaches the operating system. -/
def progMain (fi : FileInput) (env : String → Except FetchErr FetchedPage)
    (order : List Nat) (words : List String) : RunOutcome :=
  match get_urls fi with
  | .error _ =>
    { setupError := some SetupMsg.fileMissing, truncated := false,
      launchedUrls := none, report := none, errorMsg := none }
  | .ok urls =>
    if urls.length = 0 then
      { setupError := some SetupMsg.fileEmpty, truncated := false,
        launchedUrls := none, report := none, errorMsg := none }
    else
      match mainModel env order words urls with
      | .ok ls =>
        { setupError := none, truncated := true, launchedUrls := some urls,
          report := some ls, errorMsg := none }
      | .error e =>
        { setupError := none, truncated := true, launchedUrls := some urls,
          report := none, errorMsg := some (msgOf e) }

/-- The page a url fetched successfully (placeholder for urls the oracle
fails on; only used under an all-successes hypothesis). -/
def pageOf (env : String → Except FetchErr FetchedPage) (u : String) : FetchedPage :=
  match env u with
  | .ok p => p
  | .error _ => { textPlain := "", textSep := "" }

/-- The full row list of a batch in which every fetch succeeded: one block
of per-word rows per url, in input order. -/
def pipelineRows (env : String → Except FetchErr FetchedPage)
    (words : List String) (urls : List String) : List Row :=
  urls.flatMap fun u => rowsFor words u (pageOf env u)

/-- The occurrence count of word `w` on the page of url `u`. -/
def specCount (env : String → Except FetchErr FetchedPage) (u w : String) : Nat :=
  count_words (pageOf env u).textPlain w

/-- The `total_words` aggregate of the page of url `u`. -/
def specTotal (env : String → Except FetchErr FetchedPage) (u : String) : Nat :=
  (get_aggr_data u (pageOf env u).textSep).total_words

/-- The `unique_words` aggregate of the page of url `u`. -/
def specUnique (env : String → Except FetchErr FetchedPage) (u : String) : Nat :=
  (get_aggr_data u (pageOf env u).textSep).unique_words

/-- The report format as the specification words it (section 6): per word
in word-list order a header line, one `- <url> => <count>` line per url in
original input order, and a per-word total line; after all words the two
grand-total lines. -/
def reportFormatSpec (env : String → Except FetchErr FetchedPage)
    (words : List String) (urls : List String) : List String :=
  (words.flatMap fun w =>
    ("Occurrences of word \"" ++ w ++ "\":") ::
    (urls.map fun u => "- " ++ u ++ " => " ++ toString (specCount env u w)) ++
    ["- Total count for word \"" ++ w ++ "\" in all urls => " ++
      toString ((urls.map fun u => specCount env u w).sum)]) ++
  ["* Total count of all words in all urls => " ++
    toString ((urls.map fun u => specTotal env u).sum),
  "* Total count of unique words in all urls => " ++
    toString ((urls.map fun u => specUnique env u).sum)]

/-- Concrete oracle for witnesses and counterexamples: two reachable pages
(the worked example's page A and page B) and a connection error for every
other url. -/
def envTwoPages : String → Except FetchErr FetchedPage := fun u =>
  if u = "urlA" then
    .ok { textPlain := "Our team is the best team in Uniberg",
          textSep := "Our team is the best team in Uniberg" }
  else if u = "urlB" then
    .ok { textPlain := "No matches here", textSep := "No matches here" }
  else .error (.connector "Cannot connect to host")




theorem countOccAux_eq_zero (w : List Char) (t : List Char) (h : subOcc w t = false) :
    ∀ skip, countOccAux w t skip = 0 := by
  induction t with
  | nil => intro skip; rfl
  | cons c ts ih =>
    intro skip
    rw [subOcc] at h
    rcases Bool.or_eq_false_iff.mp h with ⟨h1, h2⟩
    cases skip with
    | zero =>
      rw [countOccAux, if_neg (by simp [h1])]
      exact ih h2 0
    | succ k =>
      rw [countOccAux]
      exact ih h2 k

theorem countOcc_eq_zero_of_not_subOcc (t w : List Char) (h : subOcc w t = false) :
    countOcc t w = 0 := by
  cases w with
  | nil =>
    cases t with
    | nil => simp [subOcc, leadsWith] at h
    | cons c ts => simp [subOcc, leadsWith] at h
  | cons d ws => exact countOccAux_eq_zero (d :: ws) t h 0

/-- Claim C4: `count_words` is total here — the embedding of "never raises
an exception" for the program's (alphabetic, hence regex-literal) target
words — and it returns 0 whenever the word does not occur
case-insensitively in the page's visible text; in particular an empty body
yields count 0 for every configured target word. -/
theorem c4_count_never_fails (html_text word : String) :
    (subOcc (lowerL word.toList) (lowerL html_text.toList) = false →
      count_words html_text word = 0) ∧
    (word ∈ WORDS → html_text = "" → count_words html_text word = 0) := by
  constructor
  · intro h
    exact countOcc_eq_zero_of_not_subOcc _ _ h
  · intro hw he
    subst he
    simp only [WORDS, List.mem_cons, List.not_mem_nil, or_false] at hw
    rcases hw with h | h <;> subst h <;> decide

/-- Witness for C4 at concrete inputs: the word "team" does not occur in
page B's visible text, and the empty body yields count 0. -/
theorem c4_count_never_fails_witness :
    count_words "No matches here" "team" = 0 ∧ count_words "" "team" = 0 :=
  ⟨(c4_count_never_fails "No matches here" "team").1 (by decide),
   (c4_count_never_fails "" "team").2 (by decide) rfl⟩

/-- Claim C5: for every page, `total_words ≥ unique_words`, with equality
exactly when the extracted alphabetic tokens are pairwise distinct. -/
theorem c5_total_ge_unique (url text : String) :
    (get_aggr_data url text).unique_words ≤ (get_aggr_data url text).total_words ∧
    ((get_aggr_data url text).total_words = (get_aggr_data url text).unique_words ↔
      (extractTokens text).Nodup) := by
  constructor
  · exact (List.dedup_sublist (extractTokens text)).length_le
  · constructor
    · intro h
      have heq := (List.dedup_sublist (extractTokens text)).eq_of_length h.symm
      rw [← heq]
      exact List.nodup_dedup _
    · intro h
      show (extractTokens text).length = (extractTokens text).dedup.length
      rw [List.dedup_eq_self.mpr h]

/-- Claim C6: `count_words` is case-insensitive — the counts for `"Team"`
and `"team"` agree on every text, and so do the counts for any two casings
of the same word. -/
theorem c6_case_insensitive (text : String) :
    count_words text "Team" = count_words text "team" ∧
    ∀ w₁ w₂ : String, lowerL w₁.toList = lowerL w₂.toList →
      count_words text w₁ = count_words text w₂ := by
  constructor
  · show countOcc (lowerL text.toList) (lowerL "Team".toList)
        = countOcc (lowerL text.toList) (lowerL "team".toList)
    rw [show lowerL "Team".toList = lowerL "team".toList from by decide]
  · intro w₁ w₂ h
    show countOcc (lowerL text.toList) (lowerL w₁.toList)
        = countOcc (lowerL text.toList) (lowerL w₂.toList)
    rw [h]

/-- Witness for C6: two casings of "team" against the example text. -/
theorem c6_case_insensitive_witness :
    count_words exampleText "TEAM" = count_words exampleText "team" :=
  (c6_case_insensitive exampleText).2 "TEAM" "team" (by decide)

/-- Claim C7: `get_aggr_data` lowercases the visible text, splits it on
whitespace, discards tokens with any non-alphabetic character, and counts
the remaining tokens (`total_words`) and the distinct ones
(`unique_words`); on the worked example's visible text it yields
`total_words = 8`, `unique_words = 7`, and `count_words` yields
`team = 2`, `uniberg = 1`. -/
theorem c7_aggregate_example :
    (∀ url text : String,
      get_aggr_data url text =
        { url := url
          total_words := ((splitWs (lowerL text.toList)).filter isalphaTok).length
          unique_words := ((splitWs (lowerL text.toList)).filter isalphaTok).dedup.length }) ∧
    (get_aggr_data "urlA" exampleText).total_words = 8 ∧
    (get_aggr_data "urlA" exampleText).unique_words = 7 ∧
    count_words exampleText "team" = 2 ∧
    count_words exampleText "uniberg" = 1 := by
  refine ⟨fun url text => rfl, ?_, ?_, ?_, ?_⟩ <;> decide

theorem firstErr_eq_none_of_ok {ε α : Type} (order : List Nat)
    (tasks : List (Except ε α)) (h : ∀ t ∈ tasks, errOf t = none) :
    firstErr order tasks = none := by
  induction order with
  | nil => simp [firstErr, List.filterMap_eq_nil_iff.mpr h]
  | cons i rest ih =>
    cases hi : tasks[i]? with
    | none => simp [firstErr, hi, ih]
    | some t =>
      have ht := h t (List.getElem?_mem hi)
      simp [firstErr, hi, ht, ih]

theorem errOf_eq_none_of_firstErr {ε α : Type} (order : List Nat)
    (tasks : List (Except ε α)) (h : firstErr order tasks = none) :
    ∀ t ∈ tasks, errOf t = none := by
  induction order with
  | nil =>
    rw [firstErr, List.head?_eq_none_iff] at h
    exact List.filterMap_eq_nil_iff.mp h
  | cons i rest ih =>
    cases hi : tasks[i]? with
    | none =>
      rw [firstErr, hi] at h
      exact ih h
    | some t =>
      cases he : errOf t with
      | none =>
        simp only [firstErr, hi, he] at h
        exact ih h
      | some e => simp [firstErr, hi, he] at h

theorem gatherModel_ok {ε α : Type} (order : List Nat) (tasks : List (Except ε α))
    (h : ∀ t ∈ tasks, errOf t = none) :
    gatherModel order tasks = .ok (tasks.filterMap okOf) := by
  simp [gatherModel, firstErr_eq_none_of_ok order tasks h]

theorem gatherModel_err {ε α : Type} (order : List Nat) (tasks : List (Except ε α))
    (h : ∃ t ∈ tasks, isOkE t = false) :
    ∃ e, gatherModel order tasks = .error e := by
  rcases h with ⟨t, ht, hbad⟩
  cases hfe : firstErr order tasks with
  | some e => exact ⟨e, by simp [gatherModel, hfe]⟩
  | none =>
    have hnone := errOf_eq_none_of_firstErr order tasks hfe t ht
    cases t with
    | ok a => simp [isOkE] at hbad
    | error e => simp [errOf] at hnone

theorem filterMap_okOf_map (env : String → Except FetchErr FetchedPage)
    (words : List String) (urls : List String)
    (hall : ∀ u ∈ urls, isOkE (env u) = true) :
    (urls.map (fetch_data env words)).filterMap okOf
      = urls.map fun u => rowsFor words u (pageOf env u) := by
  induction urls with
  | nil => rfl
  | cons u us ih =>
    have hu := hall u (List.mem_cons_self u us)
    have hus : ∀ v ∈ us, isOkE (env v) = true :=
      fun v hv => hall v (List.mem_cons_of_mem u hv)
    cases he : env u with
    | error e => rw [he] at hu; simp [isOkE] at hu
    | ok p =>
      simp only [List.map_cons, List.filterMap_cons, fetch_data, he, okOf, pageOf,
        ih hus]

theorem fetch_all_ok (env : String → Except FetchErr FetchedPage) (order : List Nat)
    (words urls : List String) (hne : urls ≠ [])
    (hall : ∀ u ∈ urls, isOkE (env u) = true) :
    fetch_all env order words urls = .ok (pipelineRows env words urls) := by
  have htasks : ∀ t ∈ urls.map (fetch_data env words), errOf t = none := by
    intro t ht
    rcases List.mem_map.mp ht with ⟨u, hu, rfl⟩
    have hok := hall u hu
    cases he : env u with
    | ok p => simp [fetch_data, he, errOf]
    | error e => rw [he] at hok; simp [isOkE] at hok
  have h1 : gatherModel order (urls.map (fetch_data env words))
      = .ok (urls.map fun u => rowsFor words u (pageOf env u)) := by
    rw [gatherModel_ok order _ htasks, filterMap_okOf_map env words urls hall]
  simp only [fetch_all, h1]
  rw [if_neg (by simp [List.map_eq_nil_iff, hne])]
  rw [pipelineRows, List.flatMap_def]

theorem fetch_all_err (env : String → Except FetchErr FetchedPage) (order : List Nat)
    (words urls : List String) (hfail : ∃ u ∈ urls, isOkE (env u) = false) :
    ∃ e, fetch_all env order words urls = .error e := by
  have htask : ∃ t ∈ urls.map (fetch_data env words), isOkE t = false := by
    rcases hfail with ⟨u, hu, hbad⟩
    refine ⟨fetch_data env words u, List.mem_map_of_mem _ hu, ?_⟩
    cases he : env u with
    | ok p => rw [he] at hbad; simp [isOkE] at hbad
    | error e => simp [fetch_data, he, isOkE]
  rcases gatherModel_err order _ htask with ⟨e, hge⟩
  exact ⟨e, by rw [fetch_all, hge]⟩

/-- Claim C2 (confirmed for every batch that produces a result, i.e. every
batch whose fetches all succeed): whatever the completion order of the
concurrent fetches, the gathered dataframe is the concatenation of exactly
one per-url row block per input url, in the original input-list order. -/
theorem c2_results_in_input_order (env : String → Except FetchErr FetchedPage)
    (words urls : List String) (hne : urls ≠ [])
    (hall : ∀ u ∈ urls, isOkE (env u) = true) :
    ∀ order : List Nat,
      fetch_all env order words urls = .ok (pipelineRows env words urls) :=
  fun order => fetch_all_ok env order words urls hne hall

/-- Witness for C2: two urls fetched with reversed completion order still
gather in input order. -/
theorem c2_results_in_input_order_witness :
    fetch_all envTwoPages [1, 0] WORDS ["urlA", "urlB"]
      = .ok (pipelineRows envTwoPages WORDS ["urlA", "urlB"]) :=
  c2_results_in_input_order envTwoPages WORDS ["urlA", "urlB"] (by decide) (by decide)
    [1, 0]

/-- Counterexample to claim C1 as stated: a batch of two urls in which
`urlA` fetches successfully and `urlX` fails with a connection error.  The
batch is launched, but no report is produced at all: the single failing
fetch aborts the whole batch (the claim's "the batch does not abort" and
"the report reflects the successful pages' data" are false), and the
top-level `ClientConnectorError` handler prints instead. -/
theorem c1_counterexample :
    (progMain (.present ["urlA", "urlX"]) envTwoPages [0, 1] WORDS).launchedUrls
        = some ["urlA", "urlX"] ∧
    (progMain (.present ["urlA", "urlX"]) envTwoPages [0, 1] WORDS).report = none ∧
    (progMain (.present ["urlA", "urlX"]) envTwoPages [0, 1] WORDS).errorMsg
        = some RunMsg.connErr := by
  refine ⟨?_, ?_, ?_⟩ <;> decide

/-- Claim C1 as amended: when at least one url's fetch fails, the whole
batch aborts — `asyncio.gather` propagates the exception, no report is
written, and the corresponding top-level handler prints an error message;
nothing is raised to the caller (the outcome is still a normal
`RunOutcome`), but the successful pages' data is discarded. -/
theorem c1_failure_aborts_batch (lines : List String)
    (env : String → Except FetchErr FetchedPage) (order : List Nat)
    (words : List String) (hne : lines.map stripStr ≠ [])
    (hfail : ∃ u ∈ lines.map stripStr, isOkE (env u) = false) :
    (progMain (.present lines) env order words).setupError = none ∧
    (progMain (.present lines) env order words).report = none ∧
    (progMain (.present lines) env order words).errorMsg ≠ none := by
  rcases fetch_all_err env order words (lines.map stripStr) hfail with ⟨e, hfe⟩
  have hmm : mainModel env order words (lines.map stripStr) = .error e := by
    rw [mainModel, hfe]
  have hl : lines ≠ [] := fun h => hne (by simp [h])
  simp [progMain, get_urls, hl, hmm]

/-- Witness for the amended C1: the concrete two-url batch of the
counterexample satisfies the amended claim's hypotheses and conclusion. -/
theorem c1_failure_aborts_batch_witness :
    (progMain (.present ["pageA", "urlX"]) envTwoPages [0, 1] WORDS).setupError = none ∧
    (progMain (.present ["pageA", "urlX"]) envTwoPages [0, 1] WORDS).report = none ∧
    (progMain (.present ["pageA", "urlX"]) envTwoPages [0, 1] WORDS).errorMsg ≠ none :=
  c1_failure_aborts_batch ["pageA", "urlX"] envTwoPages [0, 1] WORDS (by decide)
    (by decide)

/-- Claim C8: a missing `urls.txt` and an empty `urls.txt` each produce a
fatal setup error before the batch starts, with two distinct user
messages; in both cases (in particular the empty-file case) `result.txt`
is neither truncated nor written and no fetch is launched. -/
theorem c8_setup_errors (env : String → Except FetchErr FetchedPage)
    (order : List Nat) (words : List String) :
    progMain .missing env order words =
      { setupError := some SetupMsg.fileMissing, truncated := false,
        launchedUrls := none, report := none, errorMsg := none } ∧
    progMain (.present []) env order words =
      { setupError := some SetupMsg.fileEmpty, truncated := false,
        launchedUrls := none, report := none, errorMsg := none } ∧
    setupMessageText SetupMsg.fileMissing ≠ setupMessageText SetupMsg.fileEmpty :=
  ⟨rfl, rfl, by decide⟩

theorem stripChars_eq_nil (s : List Char) (h : ∀ c ∈ s, isWsChar c = true) :
    stripChars s = [] := by
  rw [stripChars, List.dropWhile_eq_nil_iff.mpr h]
  rfl

/-- Claim C10: url-list loading strips each line but keeps lines that
become empty, so a file of blank lines passes the non-emptiness check:
no setup error is reported and the batch launches one fetch per line, each
for the empty-string url. -/
theorem c10_blank_lines_launch (lines : List String)
    (env : String → Except FetchErr FetchedPage) (order : List Nat)
    (words : List String) (hne : lines ≠ [])
    (hws : ∀ l ∈ lines, ∀ c ∈ l.toList, isWsChar c = true) :
    (progMain (.present lines) env order words).setupError = none ∧
    (progMain (.present lines) env order words).launchedUrls
      = some (lines.map fun _ => "") := by
  have hstrip : lines.map stripStr = lines.map fun _ => "" :=
    List.map_congr_left fun l hl => by
      rw [stripStr, stripChars_eq_nil l.toList (hws l hl)]
  constructor
  · cases hm : mainModel env order words (lines.map stripStr) with
    | ok ls => simp [progMain, get_urls, hne, hm]
    | error e => simp [progMain, get_urls, hne, hm]
  · simp only [progMain, get_urls]
    simp [hne, hstrip, List.map_const']
    cases mainModel env order words (List.replicate lines.length "") <;> rfl

/-- Witness for C10: two whitespace-only lines start a batch over two
empty-string urls. -/
theorem c10_blank_lines_launch_witness :
    (progMain (.present [" ", "  "]) envTwoPages [0, 1] WORDS).setupError = none ∧
    (progMain (.present [" ", "  "]) envTwoPages [0, 1] WORDS).launchedUrls
      = some (([" ", "  "] : List String).map fun _ => "") :=
  c10_blank_lines_launch [" ", "  "] envTwoPages [0, 1] WORDS (by decide) (by decide)

theorem uniqueFirstAux_nil_of_subset {α : Type} [DecidableEq α] (l : List α) :
    ∀ s : List α, (∀ x ∈ l, x ∈ s) → uniqueFirstAux s l = [] := by
  induction l with
  | nil => intro s _; rfl
  | cons a l ih =>
    intro s h
    rw [uniqueFirstAux, if_pos (h a (List.mem_cons_self a l))]
    exact ih s fun x hx => h x (List.mem_cons_of_mem a hx)

theorem uniqueFirstAux_append_of_nodup {α : Type} [DecidableEq α] (ws : List α) :
    ∀ s rest : List α, ws.Nodup → (∀ w ∈ ws, w ∉ s) →
      (∀ x ∈ rest, x ∈ ws ∨ x ∈ s) → uniqueFirstAux s (ws ++ rest) = ws := by
  induction ws with
  | nil =>
    intro s rest _ _ hrest
    exact uniqueFirstAux_nil_of_subset rest s
      fun x hx => (hrest x hx).resolve_left (List.not_mem_nil x)
  | cons w ws ih =>
    intro s rest hnd hnotin hrest
    rw [List.cons_append, uniqueFirstAux,
      if_neg (hnotin w (List.mem_cons_self w ws))]
    have h1 : ws.Nodup := (List.nodup_cons.mp hnd).2
    have h2 : ∀ v ∈ ws, v ∉ w :: s := by
      intro v hv hc
      rcases List.mem_cons.mp hc with rfl | hvs
      · exact (List.nodup_cons.mp hnd).1 hv
      · exact hnotin v (List.mem_cons_of_mem w hv) hvs
    have h3 : ∀ x ∈ rest, x ∈ ws ∨ x ∈ w :: s := by
      intro x hx
      rcases hrest x hx with hxw | hxs
      · rcases List.mem_cons.mp hxw with rfl | hxw'
        · exact Or.inr (List.mem_cons_self x s)
        · exact Or.inl hxw'
      · exact Or.inr (List.mem_cons_of_mem w hxs)
    exact congrArg (List.cons w) (ih (w :: s) rest h1 h2 h3)

theorem uniqueFirstAux_replicate_mem {α : Type} [DecidableEq α] (k : Nat) (u : α) :
    ∀ s l : List α, u ∈ s →
      uniqueFirstAux s (List.replicate k u ++ l) = uniqueFirstAux s l := by
  induction k with
  | zero => intro s l _; rfl
  | succ k ih =>
    intro s l hu
    rw [List.replicate_succ, List.cons_append, uniqueFirstAux, if_pos hu]
    exact ih s l hu

theorem uniqueFirstAux_replicate_blocks {α : Type} [DecidableEq α] (k : Nat)
    (hk : k ≠ 0) (us : List α) :
    ∀ s : List α, us.Nodup → (∀ u ∈ us, u ∉ s) →
      uniqueFirstAux s (us.flatMap fun u => List.replicate k u) = us := by
  induction us with
  | nil => intro s _ _; rfl
  | cons u us ih =>
    intro s hnd hnin
    obtain ⟨k', rfl⟩ : ∃ k', k = k' + 1 := ⟨k - 1, by omega⟩
    rw [List.flatMap_cons, List.replicate_succ, List.cons_append, uniqueFirstAux,
      if_neg (hnin u (List.mem_cons_self u us)),
      uniqueFirstAux_replicate_mem k' u (u :: s) _ (List.mem_cons_self u s)]
    have h1 : us.Nodup := (List.nodup_cons.mp hnd).2
    have h2 : ∀ v ∈ us, v ∉ u :: s := by
      intro v hv hc
      rcases List.mem_cons.mp hc with rfl | hvs
      · exact (List.nodup_cons.mp hnd).1 hv
      · exact hnin v (List.mem_cons_of_mem u hv) hvs
    exact congrArg (List.cons u) (ih (u :: s) h1 h2)

theorem pipelineRows_map_word (env : String → Except FetchErr FetchedPage)
    (words urls : List String) :
    (pipelineRows env words urls).map Row.word = urls.flatMap fun _ => words := by
  rw [pipelineRows, List.map_flatMap]
  exact List.flatMap_congr fun u hu => by
    simp [rowsFor, List.map_map, Function.comp_def]

theorem pipelineRows_map_url (env : String → Except FetchErr FetchedPage)
    (words urls : List String) :
    (pipelineRows env words urls).map Row.url
      = urls.flatMap fun u => List.replicate words.length u := by
  rw [pipelineRows, List.map_flatMap]
  exact List.flatMap_congr fun u hu => by
    simp [rowsFor, List.map_map, Function.comp_def, List.map_const']

theorem uniqueFirst_words_column (words urls : List String) (hnw : words.Nodup)
    (hne : urls ≠ []) :
    uniqueFirst (urls.flatMap fun _ => words) = words := by
  obtain ⟨u, us, rfl⟩ := List.exists_cons_of_ne_nil hne
  rw [List.flatMap_cons, uniqueFirst]
  refine uniqueFirstAux_append_of_nodup words [] _ hnw (by simp) fun x hx => ?_
  rcases List.mem_flatMap.mp hx with ⟨v, _, hxv⟩
  exact Or.inl hxv

theorem uniqueFirst_url_column (k : Nat) (hk : k ≠ 0) {α : Type} [DecidableEq α]
    (us : List α) (hnd : us.Nodup) :
    uniqueFirst (us.flatMap fun u => List.replicate k u) = us :=
  uniqueFirstAux_replicate_blocks k hk us [] hnd (by simp)

theorem nodup_pair_blocks {α β : Type} [DecidableEq α] [DecidableEq β]
    (ws : List α) (hw : ws.Nodup) :
    ∀ us : List β, us.Nodup →
      (us.flatMap fun u => ws.map fun w => (w, u)).Nodup := by
  intro us
  induction us with
  | nil => intro _; simp
  | cons u us ih =>
    intro hnd
    rw [List.flatMap_cons, List.nodup_append]
    refine ⟨hw.map fun a b hab => congrArg Prod.fst hab,
      ih (List.nodup_cons.mp hnd).2, ?_⟩
    intro p hp1 hp2
    rcases List.mem_map.mp hp1 with ⟨w, _, rfl⟩
    rcases List.mem_flatMap.mp hp2 with ⟨v, hv, hpv⟩
    rcases List.mem_map.mp hpv with ⟨w', _, heq⟩
    have hvu : v = u := congrArg Prod.snd heq
    exact (List.nodup_cons.mp hnd).1 (hvu ▸ hv)

theorem pipeline_pairs_nodup (env : String → Except FetchErr FetchedPage)
    (words urls : List String) (hnw : words.Nodup) (hnu : urls.Nodup) :
    ((pipelineRows env words urls).map fun r => (r.word, r.url)).Nodup := by
  have hrw : (pipelineRows env words urls).map (fun r => (r.word, r.url))
      = urls.flatMap fun u => words.map fun w => (w, u) := by
    rw [pipelineRows, List.map_flatMap]
    exact List.flatMap_congr fun u hu => by
      simp [rowsFor, List.map_map, Function.comp_def]
  rw [hrw]
  exact nodup_pair_blocks words hnw urls hnu

theorem find?_rowsFor_self (words : List String) (u : String) (p : FetchedPage)
    (w : String) (hw : w ∈ words) :
    (rowsFor words u p).find? (fun r => decide (r.word = w) && decide (r.url = u))
      = some { url := u
               total_words := (get_aggr_data u p.textSep).total_words
               unique_words := (get_aggr_data u p.textSep).unique_words
               word := w
               count := count_words p.textPlain w } := by
  induction words with
  | nil => cases hw
  | cons w₀ ws ih =>
    rw [rowsFor, List.map_cons]
    by_cases h : w₀ = w
    · subst h
      rw [List.find?_cons_of_pos _ (by simp)]
    · rw [List.find?_cons_of_neg _ (by simp [h])]
      rcases List.mem_cons.mp hw with rfl | hmem
      · exact absurd rfl h
      · exact ih hmem

theorem find?_rowsFor_other (words : List String) (u₀ u : String) (p : FetchedPage)
    (w : String) (hne : u₀ ≠ u) :
    (rowsFor words u₀ p).find? (fun r => decide (r.word = w) && decide (r.url = u))
      = none := by
  rw [List.find?_eq_none]
  intro r hr
  simp only [rowsFor, List.mem_map] at hr
  rcases hr with ⟨w', _, rfl⟩
  simp [hne]

theorem find?_pipelineRows (env : String → Except FetchErr FetchedPage)
    (words urls : List String) (w u : String) (hw : w ∈ words) (hu : u ∈ urls) :
    (pipelineRows env words urls).find?
        (fun r => decide (r.word = w) && decide (r.url = u))
      = some { url := u
               total_words := specTotal env u
               unique_words := specUnique env u
               word := w
               count := specCount env u w } := by
  induction urls with
  | nil => cases hu
  | cons u₀ us ih =>
    rw [pipelineRows, List.flatMap_cons, List.find?_append]
    by_cases h : u₀ = u
    · subst h
      rw [find?_rowsFor_self words u₀ (pageOf env u₀) w hw]
      rfl
    · rw [find?_rowsFor_other words u₀ u (pageOf env u₀) w h]
      rcases List.mem_cons.mp hu with rfl | hmem
      · exact absurd rfl h
      · rw [Option.none_or]
        exact ih hmem

theorem lookupCount_pipeline (env : String → Except FetchErr FetchedPage)
    (words urls : List String) (w u : String) (hw : w ∈ words) (hu : u ∈ urls) :
    lookupCount (pipelineRows env words urls) w u = specCount env u w := by
  rw [lookupCount, find?_pipelineRows env words urls w u hw hu]

theorem lookupTotal_pipeline (env : String → Except FetchErr FetchedPage)
    (words urls : List String) (w u : String) (hw : w ∈ words) (hu : u ∈ urls) :
    lookupTotal (pipelineRows env words urls) w u = specTotal env u := by
  rw [lookupTotal, find?_pipelineRows env words urls w u hw hu]

theorem lookupUnique_pipeline (env : String → Except FetchErr FetchedPage)
    (words urls : List String) (w u : String) (hw : w ∈ words) (hu : u ∈ urls) :
    lookupUnique (pipelineRows env words urls) w u = specUnique env u := by
  rw [lookupUnique, find?_pipelineRows env words urls w u hw hu]

theorem save_data_pipeline (env : String → Except FetchErr FetchedPage)
    (words urls : List String) (hw : words ≠ []) (hnw : words.Nodup)
    (hnu : urls.Nodup) (hne : urls ≠ []) :
    save_data (pipelineRows env words urls)
      = .ok (reportFormatSpec env words urls) := by
  have hwcol : uniqueFirst ((pipelineRows env words urls).map Row.word) = words := by
    rw [pipelineRows_map_word]
    exact uniqueFirst_words_column words urls hnw hne
  have hucol : uniqueFirst ((pipelineRows env words urls).map Row.url) = urls := by
    rw [pipelineRows_map_url]
    exact uniqueFirst_url_column words.length
      (by simpa [← List.length_eq_zero] using hw) urls hnu
  have hpairs := pipeline_pairs_nodup env words urls hnw hnu
  have hlw : words.getLast? = some (words.getLast hw) :=
    List.getLast?_eq_getLast words hw
  have hlast : words.getLast hw ∈ words := List.getLast_mem hw
  rw [save_data, if_pos hpairs]
  simp only [hwcol, hucol, hlw]
  rw [reportFormatSpec]
  refine congrArg Except.ok (congrArg₂ (· ++ ·) ?_ ?_)
  · refine List.flatMap_congr fun w hwm => ?_
    have h1 : urls.map (fun u => lookupCount (pipelineRows env words urls) w u)
        = urls.map fun u => specCount env u w :=
      List.map_congr_left fun u hum =>
        lookupCount_pipeline env words urls w u hwm hum
    have h2 : urls.map
          (fun u => "- " ++ u ++ " => "
            ++ toString (lookupCount (pipelineRows env words urls) w u))
        = urls.map fun u => "- " ++ u ++ " => " ++ toString (specCount env u w) :=
      List.map_congr_left fun u hum => by
        rw [lookupCount_pipeline env words urls w u hwm hum]
    rw [h1, h2]
  · have ht : urls.map
          (fun u => lookupTotal (pipelineRows env words urls) (words.getLast hw) u)
        = urls.map fun u => specTotal env u :=
      List.map_congr_left fun u hum =>
        lookupTotal_pipeline env words urls _ u hlast hum
    have hq : urls.map
          (fun u => lookupUnique (pipelineRows env words urls) (words.getLast hw) u)
        = urls.map fun u => specUnique env u :=
      List.map_congr_left fun u hum =>
        lookupUnique_pipeline env words urls _ u hlast hum
    rw [ht, hq]

theorem mainModel_ok (env : String → Except FetchErr FetchedPage) (order : List Nat)
    (words urls : List String) (hw : words ≠ []) (hnw : words.Nodup)
    (hnu : urls.Nodup) (hne : urls ≠ [])
    (hall : ∀ u ∈ urls, isOkE (env u) = true) :
    mainModel env order words urls = .ok (reportFormatSpec env words urls) := by
  have hf := fetch_all_ok env order words urls hne hall
  simp only [mainModel, hf]
  exact save_data_pipeline env words urls hw hnw hnu hne

/-- Claim C9: for every successful batch (every fetch succeeded — and the
pivot constraints that characterize success hold: distinct urls, a
non-empty duplicate-free word list), the report text is, for each word in
word-list order, the header line, one `- <url> => <count>` line per url in
original input order, and the per-word total line; after all words come the
two grand-total lines. -/
theorem c9_report_format (env : String → Except FetchErr FetchedPage)
    (order : List Nat) (words urls : List String) (hw : words ≠ [])
    (hnw : words.Nodup) (hnu : urls.Nodup) (hne : urls ≠ [])
    (hall : ∀ u ∈ urls, isOkE (env u) = true) :
    mainModel env order words urls = .ok (reportFormatSpec env words urls) :=
  mainModel_ok env order words urls hw hnw hnu hne hall

/-- Witness for C9: the two example pages produce exactly the
specification-format report. -/
theorem c9_report_format_witness :
    mainModel envTwoPages [1, 0] WORDS ["urlA", "urlB"]
      = .ok (reportFormatSpec envTwoPages WORDS ["urlA", "urlB"]) :=
  c9_report_format envTwoPages [1, 0] WORDS ["urlA", "urlB"] (by decide) (by decide)
    (by decide) (by decide) (by decide)

/-- Counterexample to claim C3 as stated: a batch whose only url fails has
zero successful pages, but instead of writing grand totals of 0 it writes
no report at all — the exception escapes to the top-level handler, which
prints a connection-error message. -/
theorem c3_counterexample :
    (progMain (.present ["urlX"]) envTwoPages [0] WORDS).report = none ∧
    (progMain (.present ["urlX"]) envTwoPages [0] WORDS).errorMsg
      = some RunMsg.connErr := by
  refine ⟨?_, ?_⟩ <;> decide

/-- Claim C3 as amended: when every fetch succeeds (the only way a report
is written), the grand-total lines written equal the sums of `total_words`
and of `unique_words` over all (successful) pages' aggregates; a batch
with zero successful pages writes no report and no totals — the error
escapes the fetch layer instead. -/
theorem c3_grand_totals (env : String → Except FetchErr FetchedPage)
    (order : List Nat) (words urls : List String) (hw : words ≠ [])
    (hnw : words.Nodup) (hnu : urls.Nodup) (hne : urls ≠ []) :
    ((∀ u ∈ urls, isOkE (env u) = true) →
      ∃ ls, mainModel env order words urls = .ok ls ∧
        ("* Total count of all words in all urls => "
          ++ toString ((urls.map fun u => specTotal env u).sum)) ∈ ls ∧
        ("* Total count of unique words in all urls => "
          ++ toString ((urls.map fun u => specUnique env u).sum)) ∈ ls) ∧
    ((∃ u ∈ urls, isOkE (env u) = false) →
      ∃ e, mainModel env order words urls = .error e) := by
  constructor
  · intro hall
    refine ⟨reportFormatSpec env words urls,
      mainModel_ok env order words urls hw hnw hnu hne hall, ?_, ?_⟩
    · rw [reportFormatSpec]
      exact List.mem_append_right _ (by simp)
    · rw [reportFormatSpec]
      exact List.mem_append_right _ (by simp)
  · intro hfail
    rcases fetch_all_err env order words urls hfail with ⟨e, hfe⟩
    exact ⟨e, by simp only [mainModel, hfe]⟩

/-- Witness for the amended C3: the all-successes side evaluated on the two
example pages. -/
theorem c3_grand_totals_witness :
    ∃ ls, mainModel envTwoPages [0, 1] WORDS ["urlA", "urlB"] = .ok ls ∧
      ("* Total count of all words in all urls => "
        ++ toString ((["urlA", "urlB"].map fun u => specTotal envTwoPages u).sum)) ∈ ls ∧
      ("* Total count of unique words in all urls => "
        ++ toString ((["urlA", "urlB"].map fun u => specUnique envTwoPages u).sum)) ∈ ls :=
  (c3_grand_totals envTwoPages [0, 1] WORDS ["urlA", "urlB"] (by decide) (by decide)
    (by decide) (by decide)).1 (by decide)
